import Mathlib

/-!
Shallow embedding of `papis_zotero/server.py` (the Zotero connector server of
papis-zotero): JSON-like values, Python-dict operations, the field mapper
`zotero_data_to_papis_data`, and the `saveItems` handler
`PapisRequestHandler.add`, together with theorems settling the specification
claims about them.
-/

set_option autoImplicit false

namespace PapisZotero

/-- A JSON-like Python value as it appears after `json.loads`: strings,
integers, `None` (JSON `null`), lists, and objects (dicts, modelled as
association lists in insertion order). -/
inductive Value where
  | str (s : String)
  | num (n : Int)
  | null
  | list (vs : List Value)
  | dict (d : List (String × Value))

/-- A Python dict with string keys, in insertion order. -/
abbrev Dict := List (String × Value)

/-- `d[k]` / `d.get(k)`: the value of the first entry with key `k`. -/
def dget : Dict → String → Option Value
  | [], _ => none
  | (k, v) :: d, key => if k = key then some v else dget d key

/-- `d[k] = v`: replace the value at key `k` in place if present, otherwise
append the new entry at the end (Python dict assignment). -/
def dset : Dict → String → Value → Dict
  | [], key, val => [(key, val)]
  | (k, v) :: d, key, val =>
      if k = key then (k, val) :: d else (k, v) :: dset d key val

/-- `d.pop(k, None)` restricted to the removal part: the dict without key
`k`. -/
def derase (d : Dict) (key : String) : Dict :=
  d.filter (fun p => p.1 ≠ key)

/-- `d.update(e)`: assign every entry of `e` into `d`, in order. -/
def dupdate (d e : Dict) : Dict :=
  e.foldl (fun acc p => dset acc p.1 p.2) d

/-- The keys of a dict are pairwise distinct (every dict produced by
`json.loads` satisfies this). -/
def KeysNodup (d : Dict) : Prop := (d.map Prod.fst).Nodup

instance (d : Dict) : Decidable (KeysNodup d) := by
  unfold KeysNodup; infer_instance

/-- Python `str(x)` for the values the server applies it to (`str(None)` is
`"None"`; strings are returned unchanged; integers print in decimal).
Lists and dicts are rendered with a bracketed marker; the server never
calls `str` on those shapes along the verified paths. -/
def pyStr : Value → String
  | .str s => s
  | .num n => toString n
  | .null => "None"
  | .list _ => "[...]"
  | .dict _ => "\x7b...\x7d"

/-- Python `x is None`. -/
def isNone : Value → Bool
  | .null => true
  | _ => false

/-- Python truthiness of a value (`if x:`). -/
def pyTruthy : Value → Bool
  | .str s => !(s == "")
  | .num n => !(n == 0)
  | .null => false
  | .list vs => !vs.isEmpty
  | .dict d => !d.isEmpty

/-- The Python exceptions the handler can raise or observe. -/
inductive PyErr where
  /-- `json.JSONDecodeError` from `json.loads`. -/
  | jsonDecode
  /-- `KeyError` (e.g. `data["items"]` missing). -/
  | keyErr
  /-- `TypeError` (e.g. `" ".join` on non-strings, `len` of an int). -/
  | typeErr
  /-- `AttributeError` (e.g. `.get` on something that is not a dict). -/
  | attrErr
  /-- `urllib.error.URLError` that is not an `HTTPError` (unreachable host). -/
  | urlErr
  /-- a socket timeout during the fetch. -/
  | timeoutErr
  /-- an exception raised by `papis.crossref.doi_to_data`. -/
  | lookupErr (msg : String)
deriving DecidableEq

/-- Modelled from the spec: the fixed source-key → canonical-key translation
table `ZOTERO_TO_PAPIS_FIELD_MAP` lives in `papis_zotero/sql.py`, which is not
among the sources; the spec describes it only as "a fixed table of source-key
→ canonical-key translations" whose domain is disjoint from the specially
handled keys `id`, `attachments` and `tags`. We use a representative table
consistent with the spec's canonical vocabulary. -/
def ZOTERO_TO_PAPIS_FIELD_MAP : List (String × String) :=
  [("DOI", "doi"),
   ("abstractNote", "abstract"),
   ("publicationTitle", "journal"),
   ("itemType", "type"),
   ("websiteTitle", "booktitle")]

/-- `" ".join(tags)`: succeeds on a list of strings, raises `TypeError`
otherwise. -/
def joinTags : List Value → Except PyErr String
  | [] => .ok ""
  | [.str s] => .ok s
  | .str s :: v :: rest => do
      let tail ← joinTags (v :: rest)
      .ok (s ++ " " ++ tail)
  | _ => .error .typeErr

/-- The translation loop of `zotero_data_to_papis_data`:
`for key in ZOTERO_TO_PAPIS_FIELD_MAP: value = item.pop(key, None); if value
is not None: data[map[key]] = value`. Returns the output built so far and
the mutated item. -/
def translateFields : List (String × String) → Dict → Dict → Dict × Dict
  | [], data, item => (data, item)
  | (key, canon) :: rest, data, item =>
      let value := dget item key
      let item := derase item key
      match value with
      | some v => if isNone v then translateFields rest data item
                  else translateFields rest (dset data canon v) item
      | none => translateFields rest data item

/-- The tags step of `zotero_data_to_papis_data`:
`tags = item.pop("tags", None); if isinstance(tags, list): data["tags"] =
" ".join(tags)`. Joining a list with a non-string element raises
`TypeError`. -/
def applyTags (data item : Dict) : Except PyErr (Dict × Dict) :=
  match dget item "tags" with
  | some (.list vs) => do
      let joined ← joinTags vs
      .ok (dset data "tags" (.str joined), derase item "tags")
  | _ => .ok (data, derase item "tags")

/-- The Crossref step of `zotero_data_to_papis_data`: when `data` holds a
non-`None` `doi`, call the lookup on `str(doi)`, drop its `title`, and merge
the rest into `data`; a raising lookup is not caught by the source. -/
def applyCrossref (doiLookup : String → Except PyErr Dict)
    (data item : Dict) : Except PyErr (Dict × Dict) :=
  match dget data "doi" with
  | some doi =>
      if isNone doi then .ok (data, item)
      else do
        let crossref_data ← doiLookup (pyStr doi)
        .ok (dupdate data (derase crossref_data "title"), item)
  | none => .ok (data, item)

/-- `zotero_data_to_papis_data(item)`: strips `id` and `attachments`,
translates known keys, joins list-shaped `tags`, copies the remaining keys
(`data.update(item)`), and merges Crossref data (minus `title`) when a `doi`
is present. The external lookup `papis.crossref.doi_to_data` is a parameter
`doiLookup` (it may raise, which the source does not catch). Returns the
produced data together with the mutated input item (the source mutates
`item` via `pop`). -/
def zotero_data_to_papis_data (doiLookup : String → Except PyErr Dict)
    (item : Dict) : Except PyErr (Dict × Dict) := do
  let item := derase (derase item "id") "attachments"
  let (data, item) := translateFields ZOTERO_TO_PAPIS_FIELD_MAP [] item
  let (data, item) ← applyTags data item
  let data := dupdate data item
  applyCrossref doiLookup data item

/-- `pat` occurs as a contiguous run inside `l`. -/
def hasSubstr (pat : List Char) : List Char → Bool
  | [] => pat.isEmpty
  | c :: cs => pat.isPrefixOf (c :: cs) || hasSubstr pat cs

/-- `re.match(r".*pdf.*", mime)` viewed as a Boolean: `re.match` anchors at
the start and `.` does not cross a newline, so the pattern matches exactly
when `"pdf"` occurs (case-sensitively) in `mime` before the first newline. -/
def pdfPatternMatch (mime : String) : Bool :=
  hasSubstr "pdf".toList (mime.toList.takeWhile (fun c => !(c == '\n')))

/-- Modelled from the spec: `papis_zotero.utils.is_pdf` lives in
`papis_zotero/utils.py`, which is not among the sources; the spec says the
fetched bytes are validated "by signature inspection (the canonical PDF magic
header)". The magic header is `%PDF` (bytes 37, 80, 68, 70). -/
def is_pdf (body : List Nat) : Bool :=
  List.isPrefixOf [37, 80, 68, 70] body

/-- Outcome of `urllib.request.urlopen(url).read()` for one URL: the bytes,
or one of the transport-level failures. `httpError` is a non-2xx HTTP
response (`urllib.error.HTTPError`); `urlError` is an unreachable host
(`urllib.error.URLError` that is not an `HTTPError`); `timeout` is a socket
timeout. The source catches only `HTTPError`. -/
inductive NetResult where
  | ok (body : List Nat)
  | httpError
  | urlError
  | timeout

/-- The path `tempfile.mktemp(suffix=".pdf")` returns for the `n`-th
temporary file of the request. -/
def tmpPath (n : Nat) : String :=
  "tmp" ++ toString n ++ ".pdf"

/-- Result of the attachment loop of `PapisRequestHandler.add` for one item:
local files collected, URLs actually fetched over the network, the next
temporary-file index, and the exception that escaped, if any. -/
structure FetchOut where
  files : List String
  fetched : List String
  next : Nat
  err : Option PyErr

/-- The `for attachment in item.get("attachments")` loop: an attachment whose
declared `mimeType` matches the PDF pattern is fetched; `HTTPError` is caught
and skips the attachment; other transport errors escape; fetched bytes are
written to a fresh temporary file and kept only if `is_pdf` accepts them. -/
def fetchAttachments (net : String → NetResult) :
    List Value → Nat → FetchOut
  | [], n => ⟨[], [], n, none⟩
  | a :: rest, n =>
      match a with
      | .dict ad =>
          let mime := pyStr ((dget ad "mimeType").getD .null)
          if pdfPatternMatch mime then
            match (dget ad "url").getD .null with
            | .str url =>
                match net url with
                | .ok body =>
                    let path := tmpPath n
                    let out := fetchAttachments net rest (n + 1)
                    if is_pdf body then
                      ⟨path :: out.files, url :: out.fetched, out.next, out.err⟩
                    else
                      ⟨out.files, url :: out.fetched, out.next, out.err⟩
                | .httpError =>
                    let out := fetchAttachments net rest n
                    ⟨out.files, url :: out.fetched, out.next, out.err⟩
                | .urlError => ⟨[], [url], n, some .urlErr⟩
                | .timeout => ⟨[], [url], n, some .timeoutErr⟩
            | _ => ⟨[], [], n, some .typeErr⟩
          else
            fetchAttachments net rest n
      | _ => ⟨[], [], n, some .attrErr⟩

/-- `if item.get("attachments") and len(item.get("attachments")) > 0:` —
runs the attachment loop on a truthy list; a falsy value (absent, `None`,
`[]`, …) means zero files; a truthy non-list raises (`len` of an int is a
`TypeError`; iterating a string or dict hands non-dicts to `.get`, an
`AttributeError`). -/
def itemFiles (net : String → NetResult) (item : Dict) (n : Nat) : FetchOut :=
  let atts := (dget item "attachments").getD .null
  if pyTruthy atts then
    match atts with
    | .list l => fetchAttachments net l n
    | .num _ => ⟨[], [], n, some .typeErr⟩
    | _ => ⟨[], [], n, some .attrErr⟩
  else ⟨[], [], n, none⟩

/-- One iteration of the item loop in `PapisRequestHandler.add`: collect the
item's attachment files, then map its fields; on success the pair
`(files, papis_item)` is handed to `papis.commands.add.run`. -/
def processItem (net : String → NetResult)
    (doiLookup : String → Except PyErr Dict) (item : Value) (n : Nat) :
    (List String × Nat) × Except PyErr (List String × Dict) :=
  match item with
  | .dict d =>
      let fo := itemFiles net d n
      match fo.err with
      | some e => ((fo.fetched, fo.next), .error e)
      | none =>
          match zotero_data_to_papis_data doiLookup d with
          | .ok (papis_item, _) => ((fo.fetched, fo.next), .ok (fo.files, papis_item))
          | .error e => ((fo.fetched, fo.next), .error e)
  | _ => (([], n), .error .attrErr)

/-- The network fetches performed and the document-store add calls made while
handling one request, in order. -/
structure Trace where
  fetched : List String
  adds : List (List String × Dict)

/-- The item loop of `PapisRequestHandler.add`: each item is processed in
order; an exception anywhere aborts the loop (and the whole handler), keeping
the store adds already made. -/
def runItems (net : String → NetResult)
    (doiLookup : String → Except PyErr Dict) :
    List Value → Nat → Trace → Trace × Option PyErr
  | [], _, tr => (tr, none)
  | it :: rest, n, tr =>
      match processItem net doiLookup it n with
      | ((f, n'), .ok fd) =>
          runItems net doiLookup rest n' ⟨tr.fetched ++ f, tr.adds ++ [fd]⟩
      | ((f, _), .error e) => (⟨tr.fetched ++ f, tr.adds⟩, some e)

def ZOTERO_VERSION : String := "5.0.25"

def ZOTERO_CONNECTOR_API_VERSION : Nat := 2

/-- The two protocol headers sent by `set_zotero_headers`. -/
def zoteroHeaders : List (String × String) :=
  [("X-Zotero-Version", ZOTERO_VERSION),
   ("X-Zotero-Connector-API-Version", toString ZOTERO_CONNECTOR_API_VERSION)]

/-- `for item in data["items"]` — what Python iteration yields on each JSON
shape: a list yields its elements, a string its characters (each a one-char
string), a dict its keys; numbers and `None` are not iterable. -/
def itemsIter : Value → Option (List Value)
  | .list vs => some vs
  | .str s => some (s.toList.map (fun c => .str (String.mk [c])))
  | .dict d => some (d.map (fun p => .str p.1))
  | _ => none

/-- Everything `PapisRequestHandler.add` does for one request: store adds,
network fetches, the response status, the protocol headers, and the echoed
body; `err` is the exception that escaped the handler, if any (in which case
no status line and no headers are sent). -/
structure AddResult where
  fetched : List String
  adds : List (List String × Dict)
  status : Option Nat
  headers : List (String × String)
  echoed : Option String
  err : Option PyErr

/-- `PapisRequestHandler.add` on one `saveItems` request: `raw` is the raw
request body, `decoded` the outcome of `json.loads` on it (an external
collaborator, like `net` and `doiLookup`). On success the handler sends 201
with the protocol headers and echoes the raw body. -/
def add (net : String → NetResult) (doiLookup : String → Except PyErr Dict)
    (raw : String) (decoded : Except Unit Value) : AddResult :=
  match decoded with
  | .error _ => ⟨[], [], none, [], none, some .jsonDecode⟩
  | .ok v =>
      match v with
      | .dict d =>
          match dget d "items" with
          | some itemsVal =>
              match itemsIter itemsVal with
              | some items =>
                  match runItems net doiLookup items 0 ⟨[], []⟩ with
                  | (tr, none) =>
                      ⟨tr.fetched, tr.adds, some 201, zoteroHeaders, some raw, none⟩
                  | (tr, some e) => ⟨tr.fetched, tr.adds, none, [], none, some e⟩
              | none => ⟨[], [], none, [], none, some .typeErr⟩
          | none => ⟨[], [], none, [], none, some .keyErr⟩
      | _ => ⟨[], [], none, [], none, some .typeErr⟩

/-! ## Lemmas about the dict operations -/

theorem dget_eq_none_iff {d : Dict} {k : String} :
    dget d k = none ↔ ∀ p ∈ d, p.1 ≠ k := by
  induction d with
  | nil => simp [dget]
  | cons p d ih =>
      obtain ⟨k', v⟩ := p
      by_cases h : k' = k <;> simp [dget, h, ih]

theorem dget_derase_self (d : Dict) (k : String) :
    dget (derase d k) k = none := by
  rw [dget_eq_none_iff]
  intro p hp
  simp only [derase, List.mem_filter, decide_eq_true_eq] at hp
  exact hp.2

theorem dget_derase_ne {d : Dict} {k k' : String} (h : k' ≠ k) :
    dget (derase d k) k' = dget d k' := by
  induction d with
  | nil => simp [derase]
  | cons p d ih =>
      obtain ⟨k₀, v⟩ := p
      by_cases h0 : k₀ = k
      · have h1 : ¬ k₀ = k' := fun hc => h (hc ▸ h0)
        simpa [derase, dget, h0, h1, Ne.symm h] using ih
      · by_cases h1 : k₀ = k'
        · simp [derase, dget, h0, h1, h]
        · simpa [derase, dget, h0, h1] using ih

theorem mem_derase {d : Dict} {k : String} {p : String × Value}
    (h : p ∈ derase d k) : p ∈ d ∧ p.1 ≠ k := by
  simpa [derase] using h

theorem derase_eq_self {d : Dict} {k : String} (h : dget d k = none) :
    derase d k = d := by
  rw [dget_eq_none_iff] at h
  exact List.filter_eq_self.mpr (fun p hp => by simpa using h p hp)

theorem keysNodup_derase {d : Dict} {k : String} (h : KeysNodup d) :
    KeysNodup (derase d k) := by
  unfold KeysNodup at h ⊢
  exact List.Nodup.sublist (List.Sublist.map Prod.fst (List.filter_sublist d)) h

theorem dget_dset_self (d : Dict) (k : String) (v : Value) :
    dget (dset d k v) k = some v := by
  induction d with
  | nil => simp [dset, dget]
  | cons p d ih =>
      obtain ⟨k₀, v₀⟩ := p
      by_cases h0 : k₀ = k <;> simp [dset, dget, h0, ih]

theorem dget_dset_ne {d : Dict} {k k' : String} (v : Value) (h : k' ≠ k) :
    dget (dset d k v) k' = dget d k' := by
  induction d with
  | nil => simp [dset, dget, Ne.symm h]
  | cons p d ih =>
      obtain ⟨k₀, v₀⟩ := p
      by_cases h0 : k₀ = k
      · have h1 : ¬ k₀ = k' := fun hc => h (hc ▸ h0)
        simp [dset, dget, h0, h1, Ne.symm h]
      · by_cases h1 : k₀ = k'
        · simp [dset, dget, h0, h1, h]
        · simp [dset, dget, h0, h1, ih]

theorem mem_dset {d : Dict} {k : String} {v : Value} {p : String × Value} :
    p ∈ dset d k v → p.1 = k ∨ p ∈ d := by
  induction d with
  | nil =>
      intro h
      simp only [dset, List.mem_singleton] at h
      exact Or.inl (by rw [h])
  | cons q d ih =>
      obtain ⟨k₀, v₀⟩ := q
      intro h
      by_cases h0 : k₀ = k
      · subst h0
        rw [show dset ((k₀, v₀) :: d) k₀ v = (k₀, v) :: d from by simp [dset]] at h
        cases h with
        | head => exact Or.inl rfl
        | tail _ h => exact Or.inr (List.mem_cons_of_mem _ h)
      · rw [show dset ((k₀, v₀) :: d) k v = (k₀, v₀) :: dset d k v from by
              simp [dset, h0]] at h
        cases h with
        | head => exact Or.inr (List.mem_cons_self ..)
        | tail _ h =>
            cases ih h with
            | inl h1 => exact Or.inl h1
            | inr h1 => exact Or.inr (List.mem_cons_of_mem _ h1)

theorem mem_dupdate {d e : Dict} {p : String × Value}
    (h : p ∈ dupdate d e) : p ∈ d ∨ p.1 ∈ e.map Prod.fst := by
  induction e generalizing d with
  | nil => exact Or.inl h
  | cons q e ih =>
      obtain ⟨k₀, v₀⟩ := q
      rcases @ih (dset d k₀ v₀) (by simpa [dupdate] using h) with h1 | h1
      · rcases mem_dset h1 with h2 | h2
        · exact Or.inr (by simp [h2])
        · exact Or.inl h2
      · exact Or.inr (by simp [h1])

theorem dget_dupdate_not_mem {e : Dict} {k : String}
    (h : ∀ p ∈ e, p.1 ≠ k) (d : Dict) :
    dget (dupdate d e) k = dget d k := by
  induction e generalizing d with
  | nil => rfl
  | cons p e ih =>
      obtain ⟨k₀, v₀⟩ := p
      have hk : k₀ ≠ k := h (k₀, v₀) (by simp)
      have step := ih (fun q hq => h q (by simp [hq])) (dset d k₀ v₀)
      calc dget (dupdate d ((k₀, v₀) :: e)) k
          = dget (dupdate (dset d k₀ v₀) e) k := rfl
        _ = dget (dset d k₀ v₀) k := step
        _ = dget d k := dget_dset_ne v₀ (Ne.symm hk)

theorem keysNodup_tail {p : String × Value} {e : Dict}
    (hn : KeysNodup (p :: e)) : KeysNodup e := by
  unfold KeysNodup at hn ⊢
  exact (List.nodup_cons.mp (by simpa using hn)).2

theorem dget_dupdate_of_mem {e : Dict} {k : String} {v : Value}
    (hn : KeysNodup e) (h : dget e k = some v) (d : Dict) :
    dget (dupdate d e) k = some v := by
  induction e generalizing d with
  | nil => simp [dget] at h
  | cons p e ih =>
      obtain ⟨k₀, v₀⟩ := p
      by_cases h0 : k₀ = k
      · subst h0
        have h2 : v₀ = v := by simpa [dget] using h
        subst h2
        have hke : ∀ p ∈ e, p.1 ≠ k₀ := by
          intro q hq
          unfold KeysNodup at hn
          simp only [List.map_cons, List.nodup_cons, List.mem_map] at hn
          exact fun hq1 => hn.1 ⟨q, hq, hq1⟩
        calc dget (dupdate d ((k₀, v₀) :: e)) k₀
            = dget (dupdate (dset d k₀ v₀) e) k₀ := rfl
          _ = dget (dset d k₀ v₀) k₀ := dget_dupdate_not_mem hke _
          _ = some v₀ := dget_dset_self d k₀ v₀
      · simp only [dget, h0, if_false] at h
        exact ih (keysNodup_tail hn) h (dset d k₀ v₀)

/-! ## Lemmas about the translation loop and the mapper stages -/

theorem exceptBind_ok {α β : Type} (a : α) (f : α → Except PyErr β) :
    (Except.ok a >>= f) = f a := rfl

theorem exceptBind_error {α β : Type} (e : PyErr) (f : α → Except PyErr β) :
    ((Except.error e : Except PyErr α) >>= f) = Except.error e := rfl

theorem tf_snd_mem {m : List (String × String)} {data item : Dict}
    {p : String × Value} :
    p ∈ (translateFields m data item).2 → p ∈ item := by
  induction m generalizing data item with
  | nil => exact fun h => h
  | cons q m ih =>
      obtain ⟨key, canon⟩ := q
      intro h
      simp only [translateFields] at h
      split at h
      · split at h
        · exact (mem_derase (ih h)).1
        · exact (mem_derase (ih h)).1
      · exact (mem_derase (ih h)).1

theorem tf_snd_get_none {m : List (String × String)} {data item : Dict}
    {k : String} (h : dget item k = none) :
    dget (translateFields m data item).2 k = none := by
  rw [dget_eq_none_iff] at h ⊢
  exact fun p hp => h p (tf_snd_mem hp)

theorem tf_snd_get_not_mem {m : List (String × String)} {data item : Dict}
    {k : String} (h : k ∉ m.map Prod.fst) :
    dget (translateFields m data item).2 k = dget item k := by
  induction m generalizing data item with
  | nil => rfl
  | cons q m ih =>
      obtain ⟨key, canon⟩ := q
      have hk : k ≠ key := by
        intro hc; exact h (by simp [hc])
      have h' : k ∉ m.map Prod.fst := by
        intro hc; exact h (by simp [hc])
      have hder : dget (derase item key) k = dget item k := dget_derase_ne hk
      simp only [translateFields]
      split
      · split
        · rw [ih h', hder]
        · rw [ih h', hder]
      · rw [ih h', hder]

theorem tf_snd_keysNodup {m : List (String × String)} {data item : Dict}
    (h : KeysNodup item) : KeysNodup (translateFields m data item).2 := by
  induction m generalizing data item with
  | nil => exact h
  | cons q m ih =>
      obtain ⟨key, canon⟩ := q
      simp only [translateFields]
      split
      · split
        · exact ih (keysNodup_derase h)
        · exact ih (keysNodup_derase h)
      · exact ih (keysNodup_derase h)

theorem tf_fst_get_not_snd {m : List (String × String)} {data item : Dict}
    {k : String} (h : k ∉ m.map Prod.snd) :
    dget (translateFields m data item).1 k = dget data k := by
  induction m generalizing data item with
  | nil => rfl
  | cons q m ih =>
      obtain ⟨key, canon⟩ := q
      have hk : k ≠ canon := by
        intro hc; exact h (by simp [hc])
      have h' : k ∉ m.map Prod.snd := by
        intro hc; exact h (by simp [hc])
      simp only [translateFields]
      split
      · split
        · exact ih h'
        · rw [ih h', dget_dset_ne _ hk]
      · exact ih h'

theorem tf_eq_self {m : List (String × String)} {data item : Dict}
    (h : ∀ q ∈ m, dget item q.1 = none) :
    translateFields m data item = (data, item) := by
  induction m generalizing data item with
  | nil => rfl
  | cons q m ih =>
      obtain ⟨key, canon⟩ := q
      have hv : dget item key = none := h (key, canon) (by simp)
      simp only [translateFields, hv]
      rw [derase_eq_self hv]
      exact ih (fun q hq => h q (by simp [hq]))

theorem applyTags_spec {data item d' i' : Dict}
    (h : applyTags data item = .ok (d', i')) :
    i' = derase item "tags" ∧
      ((∃ s, d' = dset data "tags" (.str s)) ∨ d' = data) := by
  unfold applyTags at h
  split at h
  · rename_i vs heq
    cases hj : joinTags vs with
    | ok s =>
        rw [hj, exceptBind_ok] at h
        simp only [Except.ok.injEq, Prod.mk.injEq] at h
        exact ⟨h.2.symm, Or.inl ⟨s, h.1.symm⟩⟩
    | error e =>
        rw [hj, exceptBind_error] at h
        exact absurd h (by simp)
  · simp only [Except.ok.injEq, Prod.mk.injEq] at h
    exact ⟨h.2.symm, Or.inr h.1.symm⟩

theorem applyTags_get_ne {data item d' i' : Dict} {k : String}
    (hk : k ≠ "tags") (h : applyTags data item = .ok (d', i')) :
    dget d' k = dget data k := by
  rcases (applyTags_spec h).2 with ⟨s, hd⟩ | hd
  · rw [hd, dget_dset_ne _ hk]
  · rw [hd]

theorem applyTags_mem {data item d' i' : Dict} {p : String × Value}
    (h : applyTags data item = .ok (d', i')) (hp : p ∈ d') :
    p.1 = "tags" ∨ p ∈ data := by
  rcases (applyTags_spec h).2 with ⟨s, hd⟩ | hd
  · rw [hd] at hp
    exact mem_dset hp
  · rw [hd] at hp
    exact Or.inr hp

theorem applyCrossref_get_none {doiLookup : String → Except PyErr Dict}
    {data item out it : Dict} {k : String}
    (hf : ∀ s d', doiLookup s = .ok d' → dget d' k = none)
    (h : applyCrossref doiLookup data item = .ok (out, it)) :
    dget out k = dget data k ∧ it = item := by
  unfold applyCrossref at h
  split at h
  · rename_i doi heq
    split at h
    · simp only [Except.ok.injEq, Prod.mk.injEq] at h
      exact ⟨by rw [← h.1], h.2.symm⟩
    · cases hl : doiLookup (pyStr doi) with
      | ok cr =>
          rw [hl, exceptBind_ok] at h
          simp only [Except.ok.injEq, Prod.mk.injEq] at h
          have hcr : ∀ p ∈ derase cr "title", p.1 ≠ k := by
            intro p hp
            exact (dget_eq_none_iff.mp (hf _ _ hl)) p (mem_derase hp).1
          refine ⟨?_, h.2.symm⟩
          rw [← h.1, dget_dupdate_not_mem hcr]
      | error e =>
          rw [hl, exceptBind_error] at h
          exact absurd h (by simp)
  · simp only [Except.ok.injEq, Prod.mk.injEq] at h
    exact ⟨by rw [← h.1], h.2.symm⟩

theorem intercalate_go_cons (s : String) (t : String) (rest : List String) :
    ∀ acc, String.intercalate.go acc s (t :: rest)
      = acc ++ s ++ String.intercalate.go t s rest := by
  induction rest generalizing t with
  | nil => intro acc; rfl
  | cons u rest ih =>
      intro acc
      rw [show String.intercalate.go acc s (t :: u :: rest)
            = String.intercalate.go (acc ++ s ++ t) s (u :: rest) from rfl]
      rw [ih, ih]
      simp [String.append_assoc]

theorem intercalate_cons_cons (s t : String) (rest : List String) :
    String.intercalate " " (s :: t :: rest)
      = s ++ " " ++ String.intercalate " " (t :: rest) := by
  show String.intercalate.go s " " (t :: rest) = _
  rw [intercalate_go_cons]
  rfl

/-- `" ".join` on a list of strings produces the space-separated
concatenation. -/
theorem joinTags_strings : ∀ ss : List String,
    joinTags (ss.map Value.str) = .ok (String.intercalate " " ss)
  | [] => rfl
  | [_] => rfl
  | s :: t :: rest => by
      have ih := joinTags_strings (t :: rest)
      simp only [List.map_cons] at ih ⊢
      rw [show joinTags (Value.str s :: Value.str t :: (rest.map Value.str))
            = (joinTags (Value.str t :: (rest.map Value.str)) >>= fun tail =>
               Except.ok (s ++ " " ++ tail)) from rfl]
      rw [ih, exceptBind_ok, intercalate_cons_cons]

theorem hasSubstr_iff {pat : List Char} : ∀ {l : List Char},
    hasSubstr pat l = true ↔ pat <:+: l := by
  intro l
  induction l with
  | nil =>
      simp only [hasSubstr, List.isEmpty_iff, List.infix_nil]
  | cons c cs ih =>
      simp only [hasSubstr, Bool.or_eq_true, List.isPrefixOf_iff_prefix, ih,
        List.infix_cons_iff]

theorem hasSubstr_map (f : Char → Char) {pat l : List Char}
    (h : hasSubstr pat l = true) : hasSubstr (pat.map f) (l.map f) = true := by
  rw [hasSubstr_iff] at h ⊢
  exact h.map f

theorem hasSubstr_of_takeWhile {pat l : List Char} {q : Char → Bool}
    (h : hasSubstr pat (l.takeWhile q) = true) : hasSubstr pat l = true := by
  rw [hasSubstr_iff] at h ⊢
  exact h.trans (List.takeWhile_prefix q).isInfix

/-- A case-sensitive match of `"pdf"` implies the lowercased media type
contains `"pdf"`; contrapositive: a media type without `pdf` in any case
never matches. -/
theorem pdfPatternMatch_lower {m : String} (h : pdfPatternMatch m = true) :
    hasSubstr "pdf".toList (m.toList.map Char.toLower) = true := by
  unfold pdfPatternMatch at h
  have h1 := hasSubstr_of_takeWhile h
  have h2 := hasSubstr_map Char.toLower h1
  rwa [show ("pdf".toList.map Char.toLower) = "pdf".toList from rfl] at h2

/-- The mapper, written with explicit stage projections (definitional). -/
theorem zotero_eq (doiLookup : String → Except PyErr Dict) (item : Dict) :
    zotero_data_to_papis_data doiLookup item =
      (applyTags
          (translateFields ZOTERO_TO_PAPIS_FIELD_MAP []
            (derase (derase item "id") "attachments")).1
          (translateFields ZOTERO_TO_PAPIS_FIELD_MAP []
            (derase (derase item "id") "attachments")).2 >>= fun di =>
        applyCrossref doiLookup (dupdate di.1 di.2) di.2) := rfl

/-- Unpack a successful run of the mapper into its stages. -/
theorem zotero_ok_elim {doiLookup : String → Except PyErr Dict}
    {item out it' : Dict}
    (h : zotero_data_to_papis_data doiLookup item = .ok (out, it')) :
    ∃ d0 i0 d1 i1,
      translateFields ZOTERO_TO_PAPIS_FIELD_MAP []
          (derase (derase item "id") "attachments") = (d0, i0) ∧
      applyTags d0 i0 = .ok (d1, i1) ∧
      applyCrossref doiLookup (dupdate d1 i1) i1 = .ok (out, it') := by
  rw [zotero_eq] at h
  rcases htf : translateFields ZOTERO_TO_PAPIS_FIELD_MAP []
      (derase (derase item "id") "attachments") with ⟨d0, i0⟩
  rw [htf] at h
  dsimp only at h
  cases hat : applyTags d0 i0 with
  | ok di =>
      obtain ⟨d1, i1⟩ := di
      rw [hat, exceptBind_ok] at h
      dsimp only at h
      exact ⟨d0, i0, d1, i1, rfl, hat, h⟩
  | error e =>
      rw [hat, exceptBind_error] at h
      exact absurd h (by simp)

theorem applyCrossref_snd {doiLookup : String → Except PyErr Dict}
    {data item out it : Dict}
    (h : applyCrossref doiLookup data item = .ok (out, it)) : it = item := by
  unfold applyCrossref at h
  split at h
  · split at h
    · simp only [Except.ok.injEq, Prod.mk.injEq] at h
      exact h.2.symm
    · cases hl : doiLookup (pyStr _) with
      | ok cr =>
          rw [hl, exceptBind_ok] at h
          simp only [Except.ok.injEq, Prod.mk.injEq] at h
          exact h.2.symm
      | error e =>
          rw [hl, exceptBind_error] at h
          exact absurd h (by simp)
  · simp only [Except.ok.injEq, Prod.mk.injEq] at h
    exact h.2.symm

/-- If `k` is not a canonical key of the table, not `tags`, absent from the
stripped item, and never produced by the enrichment lookup, then `k` is
absent from the mapper's output. -/
theorem mapper_out_get_none {doiLookup : String → Except PyErr Dict}
    {item out it' : Dict} {k : String}
    (hk1 : k ∉ ZOTERO_TO_PAPIS_FIELD_MAP.map Prod.snd)
    (hk2 : k ≠ "tags")
    (hk3 : dget (derase (derase item "id") "attachments") k = none)
    (hcr : ∀ s d', doiLookup s = .ok d' → dget d' k = none)
    (h : zotero_data_to_papis_data doiLookup item = .ok (out, it')) :
    dget out k = none := by
  obtain ⟨d0, i0, d1, i1, htf, hat, hcrf⟩ := zotero_ok_elim h
  have hd0 : dget d0 k = none := by
    have := @tf_fst_get_not_snd ZOTERO_TO_PAPIS_FIELD_MAP []
      (derase (derase item "id") "attachments") k hk1
    rw [htf] at this
    exact this
  have hi0 : dget i0 k = none := by
    have := @tf_snd_get_none ZOTERO_TO_PAPIS_FIELD_MAP []
      (derase (derase item "id") "attachments") k hk3
    rw [htf] at this
    exact this
  have hd1 : dget d1 k = none := by
    rw [applyTags_get_ne hk2 hat]
    exact hd0
  have hi1 : dget i1 k = none := by
    rw [(applyTags_spec hat).1]
    rw [dget_eq_none_iff] at hi0 ⊢
    exact fun p hp => hi0 p (mem_derase hp).1
  have hupd : dget (dupdate d1 i1) k = none := by
    rw [dget_dupdate_not_mem (dget_eq_none_iff.mp hi1) d1]
    exact hd1
  have := applyCrossref_get_none hcr hcrf
  rw [this.1]
  exact hupd

theorem applyTags_list {data item d' i' : Dict} {vs : List Value} {s : String}
    (hv : dget item "tags" = some (.list vs)) (hj : joinTags vs = .ok s)
    (h : applyTags data item = .ok (d', i')) :
    d' = dset data "tags" (.str s) ∧ i' = derase item "tags" := by
  unfold applyTags at h
  rw [hv] at h
  simp only [hj, exceptBind_ok, Except.ok.injEq, Prod.mk.injEq] at h
  exact ⟨h.1.symm, h.2.symm⟩

theorem applyTags_not_list {data item d' i' : Dict} {v : Value}
    (hv : dget item "tags" = some v) (hnl : ∀ vs, v ≠ Value.list vs)
    (h : applyTags data item = .ok (d', i')) : d' = data := by
  unfold applyTags at h
  rw [hv] at h
  cases v with
  | list vs => exact absurd rfl (hnl vs)
  | str s =>
      simp only [Except.ok.injEq, Prod.mk.injEq] at h
      exact h.1.symm
  | num n =>
      simp only [Except.ok.injEq, Prod.mk.injEq] at h
      exact h.1.symm
  | null =>
      simp only [Except.ok.injEq, Prod.mk.injEq] at h
      exact h.1.symm
  | dict dd =>
      simp only [Except.ok.injEq, Prod.mk.injEq] at h
      exact h.1.symm

/-- The `tags` value of the item reaching the tags step equals the original
item's `tags` value: neither the `id`/`attachments` strip nor the
translation loop touches the `tags` key. -/
theorem tags_reaches_applyTags {item d0 i0 : Dict}
    (htf : translateFields ZOTERO_TO_PAPIS_FIELD_MAP []
        (derase (derase item "id") "attachments") = (d0, i0)) :
    dget i0 "tags" = dget item "tags" := by
  have h1 : dget (derase (derase item "id") "attachments") "tags"
      = dget item "tags" := by
    rw [dget_derase_ne (by decide), dget_derase_ne (by decide)]
  have h2 := @tf_snd_get_not_mem ZOTERO_TO_PAPIS_FIELD_MAP []
    (derase (derase item "id") "attachments") "tags" (by decide)
  rw [htf] at h2
  exact h2.trans h1

/-! ## Claim theorems -/

/-- C1, counterexample: the enrichment result is merged into the output
unfiltered, so a lookup that returns an `id` key puts `id` back into the
record handed to the document store — the claim's "regardless of what the
enrichment lookup returns" is false. -/
theorem C1_enrichment_reintroduces_id :
    zotero_data_to_papis_data (fun _ => .ok [("id", Value.str "x")])
        [("doi", Value.str "10.1")]
      = .ok ([("doi", Value.str "10.1"), ("id", Value.str "x")],
             [("doi", Value.str "10.1")]) ∧
    dget [("doi", Value.str "10.1"), ("id", Value.str "x")] "id"
      = some (Value.str "x") := ⟨rfl, rfl⟩

/-- C1 (amended): for every ConnectorItem and any input keys, the mapper's
output contains neither `id` nor `attachments`, provided the enrichment
lookup's results contain neither — the raw `id`/`attachments` of the item
itself are always stripped, but the Crossref merge is unfiltered. -/
theorem C1_no_id_attachments_when_enrichment_clean
    (doiLookup : String → Except PyErr Dict) (item out it' : Dict)
    (hcr : ∀ s d', doiLookup s = .ok d' →
        dget d' "id" = none ∧ dget d' "attachments" = none)
    (h : zotero_data_to_papis_data doiLookup item = .ok (out, it')) :
    dget out "id" = none ∧ dget out "attachments" = none := by
  constructor
  · exact mapper_out_get_none (by decide) (by decide)
      ((dget_derase_ne (by decide)).trans (dget_derase_self item "id"))
      (fun s d' hh => (hcr s d' hh).1) h
  · exact mapper_out_get_none (by decide) (by decide)
      (dget_derase_self (derase item "id") "attachments")
      (fun s d' hh => (hcr s d' hh).2) h

/-- Witness for C1 (amended) at a concrete input. -/
theorem C1_no_id_attachments_when_enrichment_clean_witness :
    zotero_data_to_papis_data (fun _ => .ok [])
        [("id", Value.num 7), ("attachments", Value.list []),
         ("title", Value.str "T")]
      = .ok ([("title", Value.str "T")], [("title", Value.str "T")]) ∧
    dget [("title", Value.str "T")] "id" = none ∧
    dget [("title", Value.str "T")] "attachments" = none :=
  ⟨rfl,
   C1_no_id_attachments_when_enrichment_clean (fun _ => .ok [])
     [("id", Value.num 7), ("attachments", Value.list []),
      ("title", Value.str "T")]
     [("title", Value.str "T")] [("title", Value.str "T")]
     (fun s d' hh => by cases hh; exact ⟨rfl, rfl⟩) rfl⟩

/-- C3, counterexample: the source does not catch exceptions from
`papis.crossref.doi_to_data`, so a raising lookup aborts the mapper instead
of degrading to "no enrichment applied". -/
theorem C3_lookup_error_aborts_mapper :
    zotero_data_to_papis_data (fun s => .error (.lookupErr s))
        [("doi", Value.str "10.1")]
      = .error (.lookupErr "10.1") := rfl

/-- C3 (amended): if the enrichment lookup returns a mapping (even an empty
one — "no match" reported as a result rather than an exception), the mapper
always returns normally (given a joinable `tags` field); only a lookup that
raises aborts the mapping. -/
theorem C3_mapper_ok_when_lookup_returns
    (doiLookup : String → Except PyErr Dict) (item : Dict)
    (hf : ∀ s, ∃ d', doiLookup s = .ok d')
    (ht : ∀ vs, dget item "tags" = some (.list vs) → ∃ s, joinTags vs = .ok s) :
    ∃ out it', zotero_data_to_papis_data doiLookup item = .ok (out, it') := by
  have hcr : ∀ data it : Dict, ∃ out itr,
      applyCrossref doiLookup data it = .ok (out, itr) := by
    intro data it
    cases hd : dget data "doi" with
    | none => exact ⟨data, it, by unfold applyCrossref; rw [hd]⟩
    | some doi =>
        by_cases h0 : isNone doi
        · refine ⟨data, it, ?_⟩
          unfold applyCrossref
          rw [hd]
          simp [h0]
        · obtain ⟨d', hd'⟩ := hf (pyStr doi)
          refine ⟨dupdate data (derase d' "title"), it, ?_⟩
          unfold applyCrossref
          rw [hd]
          simp only [Bool.not_eq_true] at h0
          simp [h0, hd', exceptBind_ok]
  rw [zotero_eq]
  rcases htf : translateFields ZOTERO_TO_PAPIS_FIELD_MAP []
      (derase (derase item "id") "attachments") with ⟨d0, i0⟩
  have hi0 : dget i0 "tags" = dget item "tags" := tags_reaches_applyTags htf
  have hat : ∃ d1 i1, applyTags d0 i0 = .ok (d1, i1) := by
    cases hv : dget i0 "tags" with
    | none => exact ⟨d0, derase i0 "tags", by unfold applyTags; rw [hv]⟩
    | some v =>
        cases v with
        | list vs =>
            obtain ⟨s, hs⟩ := ht vs (by rw [← hi0, hv])
            refine ⟨dset d0 "tags" (.str s), derase i0 "tags", ?_⟩
            unfold applyTags
            rw [hv]
            simp [hs, exceptBind_ok]
        | str s => exact ⟨d0, derase i0 "tags", by unfold applyTags; rw [hv]⟩
        | num n => exact ⟨d0, derase i0 "tags", by unfold applyTags; rw [hv]⟩
        | null => exact ⟨d0, derase i0 "tags", by unfold applyTags; rw [hv]⟩
        | dict dd => exact ⟨d0, derase i0 "tags", by unfold applyTags; rw [hv]⟩
  dsimp only
  obtain ⟨d1, i1, hat⟩ := hat
  rw [hat, exceptBind_ok]
  dsimp only
  exact hcr (dupdate d1 i1) i1

/-- Witness for C3 (amended) at a concrete input. -/
theorem C3_mapper_ok_when_lookup_returns_witness :
    ∃ out it', zotero_data_to_papis_data (fun _ => .ok [])
        [("DOI", Value.str "10.1"),
         ("tags", Value.list [Value.str "a", Value.str "b"])]
      = .ok (out, it') :=
  C3_mapper_ok_when_lookup_returns (fun _ => .ok [])
    [("DOI", Value.str "10.1"),
     ("tags", Value.list [Value.str "a", Value.str "b"])]
    (fun _ => ⟨[], rfl⟩)
    (fun vs h => by
      have h' : Value.list [Value.str "a", Value.str "b"] = Value.list vs := by
        simpa [dget] using h
      simp only [Value.list.injEq] at h'
      exact ⟨"a b", by rw [← h']; rfl⟩)

/-- C5, counterexample: a `tags` value that is not a list is popped from the
item and never written to the output — it is dropped, not passed through
unchanged as the claim states. -/
theorem C5_nonlist_tags_dropped :
    zotero_data_to_papis_data (fun _ => .ok []) [("tags", Value.str "x")]
      = .ok ([], []) ∧ dget ([] : Dict) "tags" = none := ⟨rfl, rfl⟩

/-- C5 (amended): a `tags` field that is a list of strings becomes the
space-joined string under `tags`; a `tags` field of any other shape is
removed and absent from the output (assuming the enrichment result does not
itself carry a `tags` key). -/
theorem C5_tags_joined_or_dropped
    (doiLookup : String → Except PyErr Dict) (item out it' : Dict)
    (hcr : ∀ s d', doiLookup s = .ok d' → dget d' "tags" = none)
    (h : zotero_data_to_papis_data doiLookup item = .ok (out, it')) :
    (∀ ss : List String, dget item "tags" = some (.list (ss.map Value.str)) →
        dget out "tags" = some (.str (String.intercalate " " ss))) ∧
    (∀ v, dget item "tags" = some v → (∀ vs, v ≠ Value.list vs) →
        dget out "tags" = none) := by
  obtain ⟨d0, i0, d1, i1, htf, hat, hcrf⟩ := zotero_ok_elim h
  have hi0 : dget i0 "tags" = dget item "tags" := tags_reaches_applyTags htf
  have hi1 : i1 = derase i0 "tags" := (applyTags_spec hat).1
  have hi1n : dget i1 "tags" = none := by
    rw [hi1]; exact dget_derase_self i0 "tags"
  have hcrn := applyCrossref_get_none hcr hcrf
  constructor
  · intro ss hss
    have hlist := applyTags_list (by rw [hi0]; exact hss) (joinTags_strings ss) hat
    have hd1 : dget d1 "tags"
        = some (Value.str (String.intercalate " " ss)) := by
      rw [hlist.1, dget_dset_self]
    rw [hcrn.1, dget_dupdate_not_mem (dget_eq_none_iff.mp hi1n) d1]
    exact hd1
  · intro v hv hnl
    have hd1 : d1 = d0 := applyTags_not_list (by rw [hi0]; exact hv) hnl hat
    have hd0 : dget d0 "tags" = none := by
      have := @tf_fst_get_not_snd ZOTERO_TO_PAPIS_FIELD_MAP []
        (derase (derase item "id") "attachments") "tags" (by decide)
      rw [htf] at this
      exact this
    rw [hcrn.1, dget_dupdate_not_mem (dget_eq_none_iff.mp hi1n) d1, hd1]
    exact hd0

/-- Witness for C5 (amended) at concrete inputs covering both shapes. -/
theorem C5_tags_joined_or_dropped_witness :
    dget [("tags", Value.str "a b c")] "tags"
        = some (Value.str (String.intercalate " " ["a", "b", "c"])) ∧
    dget [("year", Value.num 2020)] "tags" = none :=
  ⟨(C5_tags_joined_or_dropped (fun _ => .ok [])
      [("tags", Value.list [Value.str "a", Value.str "b", Value.str "c"])]
      [("tags", Value.str "a b c")] []
      (fun s d' hh => by cases hh; rfl) rfl).1
      ["a", "b", "c"] rfl,
   (C5_tags_joined_or_dropped (fun _ => .ok [])
      [("tags", Value.num 3), ("year", Value.num 2020)]
      [("year", Value.num 2020)] [("year", Value.num 2020)]
      (fun s d' hh => by cases hh; rfl) rfl).2
      (Value.num 3) rfl (fun vs hc => Value.noConfusion hc)⟩

/-- C6, counterexample: the copy of untranslated leftovers does overwrite the
translated value, but a later Crossref enrichment that also returns the
canonical key overwrites the leftover value in turn, so the output does not
map the key to the untranslated value. -/
theorem C6_enrichment_overwrites_leftover :
    zotero_data_to_papis_data (fun _ => .ok [("abstract", Value.str "C")])
        [("abstractNote", Value.str "A"), ("abstract", Value.str "B"),
         ("doi", Value.str "D")]
      = .ok ([("abstract", Value.str "C"), ("doi", Value.str "D")],
             [("abstract", Value.str "B"), ("doi", Value.str "D")]) ∧
    ("abstractNote", "abstract") ∈ ZOTERO_TO_PAPIS_FIELD_MAP ∧
    dget [("abstract", Value.str "C"), ("doi", Value.str "D")] "abstract"
      = some (Value.str "C") ∧
    Value.str "C" ≠ Value.str "B" :=
  ⟨rfl, by decide, rfl, by simp⟩

/-- C6 (amended): when the item holds both a translatable source key `k`
(with non-null value) and an untranslated key equal to its canonical name
`K`, the output maps `K` to the untranslated value — the leftover copy runs
after translation and wins — unless the later enrichment merge also
returns `K` (excluded here by hypothesis). -/
theorem C6_leftover_overwrites_translated
    (doiLookup : String → Except PyErr Dict) (item out it' : Dict)
    (k K : String) (v w : Value)
    (hn : KeysNodup item)
    (hm : (k, K) ∈ ZOTERO_TO_PAPIS_FIELD_MAP)
    (hv : dget item k = some v) (hvn : isNone v = false)
    (hw : dget item K = some w)
    (hcr : ∀ s d', doiLookup s = .ok d' → dget d' K = none)
    (h : zotero_data_to_papis_data doiLookup item = .ok (out, it')) :
    dget out K = some w := by
  have hKfacts : K ∉ ZOTERO_TO_PAPIS_FIELD_MAP.map Prod.fst ∧
      K ≠ "tags" ∧ K ≠ "id" ∧ K ≠ "attachments" := by
    have hall : ∀ q ∈ ZOTERO_TO_PAPIS_FIELD_MAP,
        q.2 ∉ ZOTERO_TO_PAPIS_FIELD_MAP.map Prod.fst ∧
        q.2 ≠ "tags" ∧ q.2 ≠ "id" ∧ q.2 ≠ "attachments" := by decide
    exact hall (k, K) hm
  obtain ⟨d0, i0, d1, i1, htf, hat, hcrf⟩ := zotero_ok_elim h
  have hitem1 : dget (derase (derase item "id") "attachments") K = some w := by
    rw [dget_derase_ne hKfacts.2.2.2, dget_derase_ne hKfacts.2.2.1]
    exact hw
  have hn1 : KeysNodup (derase (derase item "id") "attachments") :=
    keysNodup_derase (keysNodup_derase hn)
  have hi0 : dget i0 K = some w := by
    have := @tf_snd_get_not_mem ZOTERO_TO_PAPIS_FIELD_MAP []
      (derase (derase item "id") "attachments") K hKfacts.1
    rw [htf] at this
    exact this.trans hitem1
  have hi0n : KeysNodup i0 := by
    have := @tf_snd_keysNodup ZOTERO_TO_PAPIS_FIELD_MAP []
      (derase (derase item "id") "attachments") hn1
    rw [htf] at this
    exact this
  have hi1 : dget i1 K = some w := by
    rw [(applyTags_spec hat).1, dget_derase_ne hKfacts.2.1]
    exact hi0
  have hi1n : KeysNodup i1 := by
    rw [(applyTags_spec hat).1]
    exact keysNodup_derase hi0n
  have hupd : dget (dupdate d1 i1) K = some w :=
    dget_dupdate_of_mem hi1n hi1 d1
  rw [(applyCrossref_get_none hcr hcrf).1]
  exact hupd

/-- Witness for C6 (amended) at a concrete input. -/
theorem C6_leftover_overwrites_translated_witness :
    zotero_data_to_papis_data (fun _ => .ok [])
        [("abstractNote", Value.str "A"), ("abstract", Value.str "B")]
      = .ok ([("abstract", Value.str "B")], [("abstract", Value.str "B")]) ∧
    dget [("abstract", Value.str "B")] "abstract" = some (Value.str "B") :=
  ⟨rfl,
   C6_leftover_overwrites_translated (fun _ => .ok [])
     [("abstractNote", Value.str "A"), ("abstract", Value.str "B")]
     [("abstract", Value.str "B")] [("abstract", Value.str "B")]
     "abstractNote" "abstract" (Value.str "A") (Value.str "B")
     (by decide) (by decide) rfl rfl rfl
     (fun s d' hh => by cases hh; rfl) rfl⟩

/-- C9, counterexample: the mapper mutates its input (the source pops
translated keys from `item`), so invoking it twice on the same mapping does
not yield the same record: the first call returns a record with `doi`, the
second call — on the mapping the first call left behind — returns an empty
record, with the enrichment lookup returning the same result both times. -/
theorem C9_mapper_mutates_input :
    zotero_data_to_papis_data (fun _ => .ok []) [("DOI", Value.str "10.1")]
      = .ok ([("doi", Value.str "10.1")], []) ∧
    zotero_data_to_papis_data (fun _ => .ok []) [] = .ok ([], []) ∧
    ([("doi", Value.str "10.1")] : Dict) ≠ [] :=
  ⟨rfl, rfl, by simp⟩

/-- C9 (amended): the mapper is deterministic for a fixed enrichment result,
but it mutates its input; re-invocation yields the same record exactly when
the first call removed nothing from the item — no `id`, `attachments`,
`tags`, and no translatable source key present — in which case the returned
mapping equals the input and the second invocation returns the same pair. -/
theorem C9_idempotent_when_unmutated
    (doiLookup : String → Except PyErr Dict) (item out it' : Dict)
    (hid : dget item "id" = none) (hatt : dget item "attachments" = none)
    (htags : dget item "tags" = none)
    (hm : ∀ q ∈ ZOTERO_TO_PAPIS_FIELD_MAP, dget item q.1 = none)
    (h : zotero_data_to_papis_data doiLookup item = .ok (out, it')) :
    it' = item ∧ zotero_data_to_papis_data doiLookup it' = .ok (out, it') := by
  obtain ⟨d0, i0, d1, i1, htf, hat, hcrf⟩ := zotero_ok_elim h
  have hitem1 : derase (derase item "id") "attachments" = item := by
    rw [derase_eq_self hid, derase_eq_self hatt]
  have hi0 : i0 = item := by
    rw [hitem1] at htf
    rw [tf_eq_self hm] at htf
    exact (congrArg Prod.snd htf).symm
  have hi1 : i1 = item := by
    rw [(applyTags_spec hat).1, hi0, derase_eq_self htags]
  have hit' : it' = item := by
    rw [applyCrossref_snd hcrf, hi1]
  refine ⟨hit', ?_⟩
  nth_rewrite 1 [hit']
  exact h

/-- Witness for C9 (amended) at a concrete input. -/
theorem C9_idempotent_when_unmutated_witness :
    zotero_data_to_papis_data (fun _ => .ok []) [("title", Value.str "T")]
      = .ok ([("title", Value.str "T")], [("title", Value.str "T")]) ∧
    zotero_data_to_papis_data (fun _ => .ok []) [("title", Value.str "T")]
      = .ok ([("title", Value.str "T")], [("title", Value.str "T")]) :=
  ⟨rfl,
   ((C9_idempotent_when_unmutated (fun _ => .ok [])
      [("title", Value.str "T")] [("title", Value.str "T")]
      [("title", Value.str "T")] rfl rfl rfl
      (by intro q hq; fin_cases hq <;> rfl) rfl).2)⟩

theorem runItems_length {net : String → NetResult}
    {doiLookup : String → Except PyErr Dict} :
    ∀ (items : List Value) (n : Nat) (tr tr' : Trace),
    runItems net doiLookup items n tr = (tr', none) →
    tr'.adds.length = tr.adds.length + items.length := by
  intro items
  induction items with
  | nil =>
      intro n tr tr' h
      simp only [runItems, Prod.mk.injEq] at h
      rw [← h.1]
      simp
  | cons it rest ih =>
      intro n tr tr' h
      simp only [runItems] at h
      rcases hp : processItem net doiLookup it n with ⟨⟨f, n'⟩, r⟩
      rw [hp] at h
      cases r with
      | ok fd =>
          have := ih n' ⟨tr.fetched ++ f, tr.adds ++ [fd]⟩ tr' h
          simp only [List.length_append, List.length_singleton] at this
          simp only [List.length_cons]
          omega
      | error e =>
          exact absurd (congrArg Prod.snd h) (by simp)

/-- C7: a request body that fails to decode as JSON causes the handler to
fail with the decode error before any processing: no store add happens and
no 201 status (nor headers, nor echo) is sent. -/
theorem C7_malformed_body_no_processing (net : String → NetResult)
    (doiLookup : String → Except PyErr Dict) (raw : String) (e : Unit) :
    add net doiLookup raw (.error e)
      = ⟨[], [], none, [], none, some .jsonDecode⟩ := rfl

/-- C8: a body decoding to an object with an `items` array, whose per-item
processing completes, makes the handler process each item in order (one
store add per item) and respond 201 with both protocol headers and the raw
body echoed back verbatim. -/
theorem C8_saveItems_success (net : String → NetResult)
    (doiLookup : String → Except PyErr Dict) (raw : String) (d : Dict)
    (items : List Value) (tr : Trace)
    (hitems : dget d "items" = some (.list items))
    (hrun : runItems net doiLookup items 0 ⟨[], []⟩ = (tr, none)) :
    add net doiLookup raw (.ok (.dict d))
      = ⟨tr.fetched, tr.adds, some 201, zoteroHeaders, some raw, none⟩ ∧
    tr.adds.length = items.length := by
  constructor
  · unfold add
    simp only [hitems, itemsIter, hrun]
  · have := runItems_length items 0 ⟨[], []⟩ tr hrun
    simpa using this

/-- Witness for C8 at a concrete request. -/
theorem C8_saveItems_success_witness :
    add (fun _ => .httpError) (fun _ => .ok [])
        "\x7b\"items\":[\x7b\"title\":\"T\"\x7d]\x7d"
        (.ok (.dict [("items", Value.list [Value.dict [("title", Value.str "T")]])]))
      = ⟨[], [([], [("title", Value.str "T")])], some 201, zoteroHeaders,
          some "\x7b\"items\":[\x7b\"title\":\"T\"\x7d]\x7d", none⟩ ∧
    ([([], [("title", Value.str "T")])] : List (List String × Dict)).length
      = ([Value.dict [("title", Value.str "T")]] : List Value).length :=
  C8_saveItems_success (fun _ => .httpError) (fun _ => .ok [])
    "\x7b\"items\":[\x7b\"title\":\"T\"\x7d]\x7d"
    [("items", Value.list [Value.dict [("title", Value.str "T")]])]
    [Value.dict [("title", Value.str "T")]]
    ⟨[], [([], [("title", Value.str "T")])]⟩ rfl rfl

/-- C10: an attachment whose descriptor lacks `mimeType` is silently
skipped: `attachment.get("mimeType")` is `None`, `str(None)` is `"None"`,
which fails the PDF pattern, so no fetch happens, nothing is raised, and
the loop continues exactly as if the attachment were not there. -/
theorem C10_missing_mimetype_skipped (net : String → NetResult)
    (ad : Dict) (rest : List Value) (n : Nat)
    (h : dget ad "mimeType" = none) :
    fetchAttachments net (.dict ad :: rest) n = fetchAttachments net rest n ∧
    pyStr Value.null = "None" ∧ pdfPatternMatch "None" = false := by
  refine ⟨?_, rfl, by decide⟩
  simp only [fetchAttachments, h, Option.getD_none]
  rw [if_neg (by decide : ¬ pdfPatternMatch (pyStr Value.null) = true)]

/-- Witness for C10 at a concrete attachment. -/
theorem C10_missing_mimetype_skipped_witness :
    fetchAttachments (fun _ => .urlError)
        [Value.dict [("url", Value.str "u")]] 0
      = fetchAttachments (fun _ => .urlError) [] 0 ∧
    pyStr Value.null = "None" ∧ pdfPatternMatch "None" = false :=
  C10_missing_mimetype_skipped (fun _ => .urlError)
    [("url", Value.str "u")] [] 0 rfl

/-- C2, counterexample: only `HTTPError` is caught by the source; a fetch
failing because the host is unreachable (`URLError`) escapes the handler —
the whole request aborts with no 201 and no store add, contradicting "skips
only that attachment … never raises an error visible to the client". -/
theorem C2_unreachable_host_aborts_request :
    add (fun _ => .urlError) (fun _ => .ok []) "raw"
        (.ok (.dict [("items", Value.list [Value.dict
          [("attachments", Value.list [Value.dict
            [("mimeType", Value.str "application/pdf"),
             ("url", Value.str "u")]])]])]))
      = ⟨["u"], [], none, [], none, some .urlErr⟩ := rfl

/-- C2 (amended): an attachment fetch failing with an HTTP status error
(`HTTPError`) is skipped: the loop records the attempted URL but yields the
same files, the same next temporary index and the same final outcome as if
the attachment were absent, and processing continues; unreachable-host and
timeout errors, in contrast, abort the request (see the counterexample). -/
theorem C2_http_error_skips_attachment (net : String → NetResult)
    (ad : Dict) (rest : List Value) (n : Nat) (u : String)
    (hm : pdfPatternMatch (pyStr ((dget ad "mimeType").getD Value.null)) = true)
    (hu : dget ad "url" = some (.str u))
    (hnet : net u = .httpError) :
    fetchAttachments net (.dict ad :: rest) n =
      { fetchAttachments net rest n with
          fetched := u :: (fetchAttachments net rest n).fetched } := by
  simp only [fetchAttachments, hu, Option.getD_some]
  rw [if_pos hm, hnet]

/-- Witness for C2 (amended) at a concrete attachment. -/
theorem C2_http_error_skips_attachment_witness :
    fetchAttachments (fun _ => .httpError)
        [Value.dict [("mimeType", Value.str "application/pdf"),
                     ("url", Value.str "u")]] 0
      = ⟨[], ["u"], 0, none⟩ := by
  have := C2_http_error_skips_attachment (fun _ => .httpError)
    [("mimeType", Value.str "application/pdf"), ("url", Value.str "u")]
    [] 0 "u" (by decide) rfl rfl
  simpa using this

/-- C4, counterexample: `re.match(r".*pdf.*", mime)` is case-sensitive, so
an attachment declaring `mimeType` `"application/PDF"` is never fetched,
even when the URL would serve valid PDF bytes — contradicting the claimed
case-insensitive match. -/
theorem C4_uppercase_pdf_not_fetched :
    fetchAttachments (fun _ => .ok [37, 80, 68, 70])
        [Value.dict [("mimeType", Value.str "application/PDF"),
                     ("url", Value.str "http://x/a.pdf")]] 0
      = ⟨[], [], 0, none⟩ ∧
    pdfPatternMatch "application/PDF" = false := ⟨rfl, by decide⟩

/-- C4 (amended): the fetch decision is a case-SENSITIVE substring match of
`"pdf"` against the declared media type: the URL is fetched exactly when the
pattern matches; a media type without `pdf` in any case never matches (and
is never fetched); `"application/PDF"` does not match while
`"application/pdf"` does. -/
theorem C4_pdf_match_case_sensitive (net : String → NetResult)
    (ad : Dict) (n : Nat) (m u : String)
    (hm : dget ad "mimeType" = some (.str m))
    (hu : dget ad "url" = some (.str u)) :
    ((fetchAttachments net [.dict ad] n).fetched
        = if pdfPatternMatch m then [u] else []) ∧
    (hasSubstr "pdf".toList (m.toList.map Char.toLower) = false →
        (fetchAttachments net [.dict ad] n).fetched = []) ∧
    pdfPatternMatch "application/PDF" = false ∧
    pdfPatternMatch "application/pdf" = true := by
  have hmain : (fetchAttachments net [.dict ad] n).fetched
      = if pdfPatternMatch m then [u] else [] := by
    simp only [fetchAttachments, hm, hu, Option.getD_some, pyStr]
    by_cases hp : pdfPatternMatch m = true
    · rw [if_pos hp, if_pos hp]
      cases hnet : net u with
      | ok body =>
          by_cases hpdf : is_pdf body
          · simp [hpdf, fetchAttachments]
          · simp [hpdf, fetchAttachments]
      | httpError => simp [fetchAttachments]
      | urlError => rfl
      | timeout => rfl
    · rw [if_neg hp, if_neg hp]
  refine ⟨hmain, ?_, by decide, by decide⟩
  intro hlow
  have hp : pdfPatternMatch m = false := by
    cases hb : pdfPatternMatch m with
    | false => rfl
    | true =>
        rw [pdfPatternMatch_lower hb] at hlow
        exact absurd hlow (by simp)
  rw [hmain, hp]
  simp

/-- Witness for C4 (amended) at a concrete attachment. -/
theorem C4_pdf_match_case_sensitive_witness :
    ((fetchAttachments (fun _ => .httpError)
        [Value.dict [("mimeType", Value.str "text/html"),
                     ("url", Value.str "u")]] 0).fetched
      = if pdfPatternMatch "text/html" then ["u"] else []) ∧
    (hasSubstr "pdf".toList ("text/html".toList.map Char.toLower) = false →
        (fetchAttachments (fun _ => .httpError)
          [Value.dict [("mimeType", Value.str "text/html"),
                       ("url", Value.str "u")]] 0).fetched = []) ∧
    pdfPatternMatch "application/PDF" = false ∧
    pdfPatternMatch "application/pdf" = true :=
  C4_pdf_match_case_sensitive (fun _ => .httpError)
    [("mimeType", Value.str "text/html"), ("url", Value.str "u")]
    0 "text/html" "u" rfl rfl

end PapisZotero
